import Mathlib

/-!
Verification of the kernel timer subsystem (`src/kernel/timer.c`).

The C module keeps a single queue of pending timers, sorted ascending by
absolute deadline, and a dispatcher (`timer_tick`) that drains all due
timers at interrupt time, fires their callbacks, requeues periodic ones and
re-arms the hardware timer (on dynamic-timer platforms) or calls the
scheduler hook (on fixed-tick platforms).

Shallow embedding:
  * a timer object (`timer_t`) is a record of its fields; the doubly linked
    `node` is represented by membership of the timer's identity in the
    queue list (a timer is "in list" iff its id occurs in the queue);
  * the global state is a store mapping timer ids to timer records plus the
    queue, a list of ids ordered head first;
  * `panic`/`DEBUG_ASSERT` failure is `Option.none`;
  * callbacks run arbitrary kernel code, so the dispatcher is parametrised
    by an interpretation function taking the callback id, the timer id, the
    current time and the state, and returning the new state together with
    the reschedule hint (`INT_RESCHEDULE` = `true`);
  * the hardware timer is external: where the C code programs it we record
    the programmed delay in the result instead of mutating modelled state.
-/

/-- Timer ids stand for the `timer_t *` identity of a timer object. -/
abbrev TimerId := Nat

/-- One `timer_t` record (`include/kernel/timer.h`): `magic`,
`scheduled_time`, `periodic_time`, `callback`, `arg`.  The callback pointer
and the argument pointer are represented by numeric codes (`0` = `NULL`). -/
structure Timer where
  magic : Nat
  scheduled_time : Nat
  periodic_time : Nat
  callback : Nat
  arg : Nat
  deriving DecidableEq

/-- The magic tag a valid initialized timer carries (`TIMER_MAGIC`). -/
def TIMER_MAGIC : Nat := 0x74696D72

/-- Modelled from the spec: `TIME_GT` lives in `include/kernel/timer.h`,
which is not part of the sources; the spec describes deadlines as absolute
monotonic clock units ordered ascending, so the comparison is plain `>` on
`Nat`. -/
def TIME_GT (a b : Nat) : Bool := a > b

/-- Modelled from the spec: `TIME_LT` from `include/kernel/timer.h`,
plain `<` on monotonic `Nat` times (see `TIME_GT`). -/
def TIME_LT (a b : Nat) : Bool := a < b

/-- Global state of the subsystem: the store of timer objects and the
timer queue (`timer_queue`), ordered head first. -/
structure TimerState where
  timers : TimerId → Timer
  queue : List TimerId

/-- Modelled from the spec: `TIMER_INITIAL_VALUE` from
`include/kernel/timer.h` is not in the sources; the spec says `initialize`
"sets validity tag, clears linkage, zeroes schedule/period/callback". -/
def TIMER_INITIAL_VALUE : Timer :=
  { magic := TIMER_MAGIC, scheduled_time := 0, periodic_time := 0,
    callback := 0, arg := 0 }

/-- `timer_initialize`: overwrite the timer object with its initial value.
(The cleared linkage is implicit: linkage is queue membership, and an
initialized-then-never-armed timer is not in the queue.) -/
def timer_initialize (s : TimerState) (tid : TimerId) : TimerState :=
  { s with timers := Function.update s.timers tid TIMER_INITIAL_VALUE }

/-- `insert_timer_in_queue`: scan from the head; insert before the first
entry whose `scheduled_time` is strictly greater than the new timer's;
append at the tail when the scan walks off the end of the list. -/
def insert_timer_in_queue (store : TimerId → Timer) (tid : TimerId) :
    List TimerId → List TimerId
  | [] => [tid]
  | entry :: rest =>
    if TIME_GT (store entry).scheduled_time (store tid).scheduled_time then
      tid :: entry :: rest
    else
      entry :: insert_timer_in_queue store tid rest

/-- `timer_set`: the common body of `timer_set_oneshot` and
`timer_set_periodic`.  `DEBUG_ASSERT(timer->magic == TIMER_MAGIC)` and the
`panic` on an already linked timer are both `none`.  `now` is the value
`current_time()` returns.  On dynamic-timer platforms the C code then
reprograms the hardware timer when the new timer became the queue head;
that call touches only the hardware device, not the modelled state. -/
def timer_set (s : TimerState) (tid : TimerId) (now delay period cb a : Nat) :
    Option TimerState :=
  if (s.timers tid).magic ≠ TIMER_MAGIC then
    none
  else if tid ∈ s.queue then
    none
  else
    let t : Timer :=
      { s.timers tid with
        scheduled_time := now + delay, periodic_time := period,
        callback := cb, arg := a }
    let store := Function.update s.timers tid t
    some { timers := store, queue := insert_timer_in_queue store tid s.queue }

/-- `timer_set_oneshot`: a zero delay is coerced to 1 tick, period is 0. -/
def timer_set_oneshot (s : TimerState) (tid : TimerId) (now delay cb a : Nat) :
    Option TimerState :=
  timer_set s tid now (if delay = 0 then 1 else delay) 0 cb a

/-- `timer_set_periodic`: a zero period is coerced to 1 tick; both the
delay and the period are the coerced period. -/
def timer_set_periodic (s : TimerState) (tid : TimerId) (now period cb a : Nat) :
    Option TimerState :=
  timer_set s tid now (if period = 0 then 1 else period)
    (if period = 0 then 1 else period) cb a

/-- `timer_cancel`: assert the magic tag, unlink if linked
(`List.erase` removes the occurrence and is a no-op when absent), then
unconditionally zero `periodic_time`, `callback` and `arg`.  The dynamic
platform branch only reprograms the hardware device. -/
def timer_cancel (s : TimerState) (tid : TimerId) : Option TimerState :=
  if (s.timers tid).magic ≠ TIMER_MAGIC then
    none
  else
    let t : Timer :=
      { s.timers tid with periodic_time := 0, callback := 0, arg := 0 }
    some { timers := Function.update s.timers tid t,
           queue := s.queue.erase tid }

/-- Interpretation of timer callbacks.  A callback in C is arbitrary kernel
code, so the dispatcher is parametrised by a function mapping the callback
code, the fired timer's id, the current time and the state at invocation
(the timer already unlinked) to the new state and the returned reschedule
hint (`true` = `INT_RESCHEDULE`). -/
abbrev CallbackInterp := Nat → TimerId → Nat → TimerState → TimerState × Bool

/-- Ghost record of one fired timer during a dispatch: its id, its
`scheduled_time` when it was popped, the queue at the moment its callback
was invoked, and the hint the callback returned. -/
structure FireRecord where
  tid : TimerId
  schedAtPop : Nat
  queueAtCb : List TimerId
  hint : Bool
  deriving DecidableEq

/-- The requeue step at the bottom of `timer_tick`'s loop: if the timer was
periodic at pop time (`periodicAtPop`) and the callback has not relinked it
and has not zeroed its period, advance `scheduled_time` to
`now + periodic_time` and reinsert it; otherwise leave the state alone. -/
def tick_requeue (now : Nat) (tid : TimerId) (periodicAtPop : Bool)
    (s2 : TimerState) : TimerState :=
  if periodicAtPop ∧ tid ∉ s2.queue ∧ 0 < (s2.timers tid).periodic_time then
    let t2 : Timer :=
      { s2.timers tid with
        scheduled_time := now + (s2.timers tid).periodic_time }
    let store := Function.update s2.timers tid t2
    { timers := store, queue := insert_timer_in_queue store tid s2.queue }
  else
    s2

/-- The `for (;;)` drain loop of `timer_tick`: peek the head; stop when the
queue is empty or the head is still in the future (`TIME_LT(now, sched)` );
otherwise unlink the head, record whether it is periodic, run its callback,
OR the hint into the accumulated return value, requeue if still periodic
and unlinked, and loop.  `fuel` bounds the number of iterations (`none`
means the fuel ran out before the loop reached its exit condition); the
returned list is the ghost log of fired timers in firing order. -/
def timer_tick_loop (cbs : CallbackInterp) (now : Nat) :
    Nat → TimerState → Bool → Option (TimerState × Bool × List FireRecord)
  | 0, _, _ => none
  | fuel + 1, s, ret =>
    match s.queue with
    | [] => some (s, ret, [])
    | tid :: rest =>
      if TIME_LT now (s.timers tid).scheduled_time then
        some (s, ret, [])
      else
        let sched := (s.timers tid).scheduled_time
        let s1 : TimerState := { s with queue := rest }
        let periodic : Bool := 0 < (s.timers tid).periodic_time
        let r := cbs (s.timers tid).callback tid now s1
        let s3 := tick_requeue now tid periodic r.1
        match timer_tick_loop cbs now fuel s3 (ret || r.2) with
        | none => none
        | some (sF, retF, log) =>
          some (sF, retF, ⟨tid, sched, rest, r.2⟩ :: log)

/-- `timer_tick` on a `PLATFORM_HAS_DYNAMIC_TIMER` build: drain, then peek
the head and reprogram the hardware one-shot timer for
`scheduled_time - now`; the `DEBUG_ASSERT(TIME_GT(scheduled_time, now))`
before the reprogram is modelled as `none` on failure.  The last component
records the delay programmed into the hardware (`none` = queue empty, no
programming). -/
def timer_tick_dynamic (cbs : CallbackInterp) (now fuel : Nat)
    (s : TimerState) :
    Option (TimerState × Bool × List FireRecord × Option Nat) :=
  match timer_tick_loop cbs now fuel s false with
  | none => none
  | some (sF, retF, log) =>
    match sF.queue with
    | [] => some (sF, retF, log, none)
    | tid :: _ =>
      if TIME_GT (sF.timers tid).scheduled_time now then
        some (sF, retF, log, some ((sF.timers tid).scheduled_time - now))
      else
        none

/-- `timer_tick` on a fixed periodic-tick build: drain, then call the
scheduler's `thread_timer_tick` hook and OR its hint into the return
value.  The hook is external scheduler code that does not touch the timer
queue; `hookHint` is the hint it returns. -/
def timer_tick_fixed (cbs : CallbackInterp) (now fuel : Nat)
    (s : TimerState) (hookHint : Bool) :
    Option (TimerState × Bool × List FireRecord) :=
  match timer_tick_loop cbs now fuel s false with
  | none => none
  | some (sF, retF, log) => some (sF, retF || hookHint, log)

/-- The number of queue entries due at `now` (deadline at or before `now`);
the termination measure of the drain loop. -/
def dueCount (now : Nat) (s : TimerState) : Nat :=
  (s.queue.filter (fun j => decide ((s.timers j).scheduled_time ≤ now))).length

/-- A callback interpretation that runs no kernel code: state unchanged,
hint `INT_NO_RESCHEDULE`.  Used to instantiate the dispatcher theorems at
concrete inputs. -/
def nopCallbacks : CallbackInterp := fun _ _ _ s => (s, false)

/-- Sortedness of the queue: deadlines ascending from the head. -/
def QueueSorted (store : TimerId → Timer) (q : List TimerId) : Prop :=
  q.Pairwise (fun a b => (store a).scheduled_time ≤ (store b).scheduled_time)

/-- A concrete timer record for instantiating theorems. -/
def exTimer (sched per : Nat) : Timer :=
  { magic := TIMER_MAGIC, scheduled_time := sched, periodic_time := per,
    callback := 0, arg := 0 }

/-- A concrete store: timer 0 one-shot at 5, timer 1 periodic 3 at 10,
timer 2 one-shot at 10, everything else periodic 2 at 20. -/
def exStore : TimerId → Timer := fun tid =>
  match tid with
  | 0 => exTimer 5 0
  | 1 => exTimer 10 3
  | 2 => exTimer 10 0
  | _ => exTimer 20 2

/-- A concrete state whose queue `[0, 1]` is sorted (deadlines 5, 10). -/
def exState : TimerState := { timers := exStore, queue := [0, 1] }

/-- The concrete store `exStore` with an arbitrary queue. -/
def exStateQ (q : List TimerId) : TimerState := { timers := exStore, queue := q }

/-- The store after a dispatch of `exState` at `now = 10` with callbacks
that run no kernel code: periodic timer 1 was requeued for 13. -/
def exFiredStore : TimerId → Timer := Function.update exStore 1 (exTimer 13 3)

/-- The fired-timer log of that dispatch: timer 0 (deadline 5) first, then
timer 1 (deadline 10), each with callback hint `INT_NO_RESCHEDULE`. -/
def exLog : List FireRecord := [⟨0, 5, [1], false⟩, ⟨1, 10, [], false⟩]

theorem insert_timer_in_queue_perm (store : TimerId → Timer) (tid : TimerId) :
    ∀ q : List TimerId, (insert_timer_in_queue store tid q).Perm (tid :: q) := by
  intro q
  induction q with
  | nil => exact List.Perm.refl _
  | cons e rest ih =>
    unfold insert_timer_in_queue
    split
    · exact List.Perm.refl _
    · exact (ih.cons e).trans (List.Perm.swap tid e rest)

theorem insert_timer_in_queue_split (store : TimerId → Timer) (tid : TimerId) :
    ∀ q : List TimerId,
      ∃ l r, q = l ++ r ∧
        insert_timer_in_queue store tid q = l ++ tid :: r ∧
        (∀ e ∈ l, (store e).scheduled_time ≤ (store tid).scheduled_time) ∧
        (∀ hd tl, r = hd :: tl →
          (store tid).scheduled_time < (store hd).scheduled_time) := by
  intro q
  induction q with
  | nil => exact ⟨[], [], rfl, rfl, by simp, by simp⟩
  | cons e rest ih =>
    by_cases h : (store tid).scheduled_time < (store e).scheduled_time
    · refine ⟨[], e :: rest, rfl, ?_, by simp, ?_⟩
      · simp [insert_timer_in_queue, TIME_GT, h]
      · intro hd tl hr
        rw [List.cons.injEq] at hr
        rw [← hr.1]
        exact h
    · obtain ⟨l, r, hq, hins, hl, hr⟩ := ih
      refine ⟨e :: l, r, by simp [hq], ?_, ?_, hr⟩
      · simp [insert_timer_in_queue, TIME_GT, h, hins]
      · intro x hx
        rcases List.mem_cons.mp hx with hx | hx
        · subst hx
          exact Nat.le_of_not_lt h
        · exact hl x hx

/-- C1: inserting into a queue sorted ascending by `scheduled_time` keeps
it sorted, and the inserted timer lands after every already-present entry
whose deadline is less than or equal to its own — in particular after every
entry with an equal deadline (FIFO tie-break). -/
theorem insert_timer_in_queue_sorted_fifo (store : TimerId → Timer)
    (tid : TimerId) (q : List TimerId) (hq : QueueSorted store q) :
    QueueSorted store (insert_timer_in_queue store tid q) ∧
    ∃ l r, q = l ++ r ∧
      insert_timer_in_queue store tid q = l ++ tid :: r ∧
      (∀ e ∈ l, (store e).scheduled_time ≤ (store tid).scheduled_time) ∧
      (∀ e ∈ r, (store tid).scheduled_time < (store e).scheduled_time) ∧
      (∀ e ∈ q, (store e).scheduled_time = (store tid).scheduled_time →
        e ∈ l) := by
  obtain ⟨l, r, hsplit, hins, hl, hrhd⟩ := insert_timer_in_queue_split store tid q
  subst hsplit
  unfold QueueSorted at hq ⊢
  rw [List.pairwise_append] at hq
  obtain ⟨hpl, hpr, hcross⟩ := hq
  have hrall : ∀ e ∈ r, (store tid).scheduled_time < (store e).scheduled_time := by
    intro e he
    match r, he with
    | hd :: tl, he =>
      have hhd := hrhd hd tl rfl
      rcases List.mem_cons.mp he with hh | ht
      · subst hh; exact hhd
      · have := (List.pairwise_cons.mp hpr).1 e ht
        exact Nat.lt_of_lt_of_le hhd this
  refine ⟨?_, l, r, rfl, hins, hl, hrall, ?_⟩
  · rw [hins, List.pairwise_append]
    refine ⟨hpl, ?_, ?_⟩
    · rw [List.pairwise_cons]
      exact ⟨fun e he => Nat.le_of_lt (hrall e he), hpr⟩
    · intro a ha b hb
      rcases List.mem_cons.mp hb with hb | hb
      · subst hb; exact hl a ha
      · exact hcross a ha b hb
  · intro e he heq
    rcases List.mem_append.mp he with he | he
    · exact he
    · exact absurd heq (Nat.ne_of_gt (hrall e he))

/-- C1 witness: inserting timer 2 (deadline 10) into the sorted queue
`[0, 1]` (deadlines 5, 10) keeps it sorted and places 2 after 1, the
existing entry with the equal deadline. -/
theorem insert_timer_in_queue_sorted_fifo_witness :
    QueueSorted exStore [0, 1] ∧
    (QueueSorted exStore (insert_timer_in_queue exStore 2 [0, 1]) ∧
      ∃ l r, [0, 1] = l ++ r ∧
        insert_timer_in_queue exStore 2 [0, 1] = l ++ 2 :: r ∧
        (∀ e ∈ l, (exStore e).scheduled_time ≤ (exStore 2).scheduled_time) ∧
        (∀ e ∈ r, (exStore 2).scheduled_time < (exStore e).scheduled_time) ∧
        (∀ e ∈ [0, 1],
          (exStore e).scheduled_time = (exStore 2).scheduled_time → e ∈ l)) := by
  have hq : QueueSorted exStore [0, 1] := by
    unfold QueueSorted
    decide
  exact ⟨hq, insert_timer_in_queue_sorted_fifo exStore 2 [0, 1] hq⟩

/-- C3: arming a timer that is already linked in the queue panics — both
`timer_set_oneshot` and `timer_set_periodic` reach the
`panic("timer %p already in list")` in `timer_set` before any mutation, so
no state (and in particular no queue with a second entry) is produced. -/
theorem timer_set_linked_panics (s : TimerState) (tid : TimerId)
    (now d p cb a : Nat) (h : tid ∈ s.queue) :
    timer_set_oneshot s tid now d cb a = none ∧
    timer_set_periodic s tid now p cb a = none := by
  unfold timer_set_oneshot timer_set_periodic timer_set
  constructor <;> split <;> simp [h]

/-- C3 witness: arming timer 0, which is linked in `exState`, panics. -/
theorem timer_set_linked_panics_witness :
    0 ∈ exState.queue ∧
    (timer_set_oneshot exState 0 30 4 7 9 = none ∧
      timer_set_periodic exState 0 30 6 7 9 = none) := by
  have h : 0 ∈ exState.queue := by decide
  exact ⟨h, timer_set_linked_panics exState 0 30 4 6 7 9 h⟩

/-- C5: on a valid unlinked timer, `timer_set_oneshot` with delay `d` sets
`scheduled_time = now + max d 1` and `period = 0`, and
`timer_set_periodic` with period `p` sets `period = max p 1` and
`scheduled_time = now + max p 1` (zero delay/period coerced to 1 tick). -/
theorem timer_set_oneshot_periodic_values (s : TimerState) (tid : TimerId)
    (now d p cb a : Nat) (hm : (s.timers tid).magic = TIMER_MAGIC)
    (hnl : tid ∉ s.queue) :
    (∃ s1, timer_set_oneshot s tid now d cb a = some s1 ∧
      (s1.timers tid).scheduled_time = now + max d 1 ∧
      (s1.timers tid).periodic_time = 0) ∧
    (∃ s2, timer_set_periodic s tid now p cb a = some s2 ∧
      (s2.timers tid).periodic_time = max p 1 ∧
      (s2.timers tid).scheduled_time = now + max p 1) := by
  have hone : (if d = 0 then 1 else d) = max d 1 := by
    cases d with
    | zero => rfl
    | succ n => simp [Nat.max_eq_left (Nat.succ_le_succ (Nat.zero_le n))]
  have hper : (if p = 0 then 1 else p) = max p 1 := by
    cases p with
    | zero => rfl
    | succ n => simp [Nat.max_eq_left (Nat.succ_le_succ (Nat.zero_le n))]
  simp [timer_set_oneshot, timer_set_periodic, timer_set, hm, hnl, hone,
    hper, Function.update_same]

/-- C5 witness: arming unlinked timer 5 of `exState` at `now = 30` with
delay 0 yields deadline 31 and period 0; arming it periodic with period 4
yields period 4 and deadline 34. -/
theorem timer_set_oneshot_periodic_values_witness :
    ((exState.timers 5).magic = TIMER_MAGIC ∧ 5 ∉ exState.queue) ∧
    ((∃ s1, timer_set_oneshot exState 5 30 0 7 9 = some s1 ∧
      (s1.timers 5).scheduled_time = 30 + max 0 1 ∧
      (s1.timers 5).periodic_time = 0) ∧
    (∃ s2, timer_set_periodic exState 5 30 4 7 9 = some s2 ∧
      (s2.timers 5).periodic_time = max 4 1 ∧
      (s2.timers 5).scheduled_time = 30 + max 4 1)) := by
  have hm : (exState.timers 5).magic = TIMER_MAGIC := rfl
  have hnl : (5 : TimerId) ∉ exState.queue := by decide
  exact ⟨⟨hm, hnl⟩,
    timer_set_oneshot_periodic_values exState 5 30 0 4 7 9 hm hnl⟩

/-- C6: `timer_cancel` on a valid timer succeeds in every link state: the
queue loses the timer's entry if present and is otherwise untouched
(`List.erase`), the timer's `periodic_time`, `callback` and `arg` are
unconditionally zeroed, its magic survives, and no other timer object is
modified. -/
theorem timer_cancel_spec (s : TimerState) (tid : TimerId)
    (hm : (s.timers tid).magic = TIMER_MAGIC) :
    ∃ s1, timer_cancel s tid = some s1 ∧
      s1.queue = s.queue.erase tid ∧
      (s1.timers tid).periodic_time = 0 ∧
      (s1.timers tid).callback = 0 ∧
      (s1.timers tid).arg = 0 ∧
      (s1.timers tid).magic = (s.timers tid).magic ∧
      (∀ j, j ≠ tid → s1.timers j = s.timers j) := by
  have hres : timer_cancel s tid = some
      { timers := Function.update s.timers tid
          { s.timers tid with periodic_time := 0, callback := 0, arg := 0 },
        queue := s.queue.erase tid } := by
    simp [timer_cancel, hm]
  refine ⟨_, hres, rfl, ?_, ?_, ?_, ?_, ?_⟩
  · simp [Function.update_same]
  · simp [Function.update_same]
  · simp [Function.update_same]
  · simp [Function.update_same]
  · intro j hj
    exact Function.update_noteq hj _ _

/-- C6 witness: cancelling linked periodic timer 1 in `exState` empties its
period, callback and argument and erases it from the queue. -/
theorem timer_cancel_spec_witness :
    (exState.timers 1).magic = TIMER_MAGIC ∧
    (∃ s1, timer_cancel exState 1 = some s1 ∧
      s1.queue = exState.queue.erase 1 ∧
      (s1.timers 1).periodic_time = 0 ∧
      (s1.timers 1).callback = 0 ∧
      (s1.timers 1).arg = 0 ∧
      (s1.timers 1).magic = (exState.timers 1).magic ∧
      (∀ j, j ≠ 1 → s1.timers j = exState.timers j)) := by
  have hm : (exState.timers 1).magic = TIMER_MAGIC := rfl
  exact ⟨hm, timer_cancel_spec exState 1 hm⟩

/-- C9: cancelling a freshly initialized, never armed timer neither
panics nor changes anything: `timer_cancel` returns successfully with the
state exactly as `timer_initialize` left it. -/
theorem timer_cancel_fresh_noop (s : TimerState) (tid : TimerId)
    (h : tid ∉ s.queue) :
    timer_cancel ( timer_initialize s tid) tid =
      some ( timer_initialize s tid) := by
  simp [timer_cancel, timer_initialize, Function.update_same,
    Function.update_idem, TIMER_INITIAL_VALUE, List.erase_of_not_mem h]

/-- C9 witness: timer 5 is not in `exState`'s queue; cancelling it right
after initialization returns the initialized state unchanged. -/
theorem timer_cancel_fresh_noop_witness :
    (5 : TimerId) ∉ exState.queue ∧
    timer_cancel ( timer_initialize exState 5) 5 =
      some ( timer_initialize exState 5) := by
  have h : (5 : TimerId) ∉ exState.queue := by decide
  exact ⟨h, timer_cancel_fresh_noop exState 5 h⟩

theorem insert_timer_in_queue_count (store : TimerId → Timer)
    (tid : TimerId) (q : List TimerId) :
    (insert_timer_in_queue store tid q).count tid = q.count tid + 1 := by
  rw [(insert_timer_in_queue_perm store tid q).count_eq]
  simp

/-- C2: the requeue step of the dispatcher.  When the popped timer was
periodic at pop time and the callback left it unlinked with a nonzero
period, its deadline becomes exactly `now + period` (the period as the
callback left it) and it is reinserted, appearing in the queue exactly
once; in every other case the state is returned untouched, so a callback
that cancelled or re-armed its own timer never gets a second entry. -/
theorem tick_requeue_spec (now : Nat) (tid : TimerId) (periodicAtPop : Bool)
    (s2 : TimerState) :
    (periodicAtPop = true ∧ tid ∉ s2.queue ∧
        0 < (s2.timers tid).periodic_time →
      ((tick_requeue now tid periodicAtPop s2).timers tid).scheduled_time
          = now + (s2.timers tid).periodic_time ∧
      (tick_requeue now tid periodicAtPop s2).queue.count tid = 1 ∧
      (tick_requeue now tid periodicAtPop s2).queue.Perm (tid :: s2.queue)) ∧
    (¬ (periodicAtPop = true ∧ tid ∉ s2.queue ∧
        0 < (s2.timers tid).periodic_time) →
      tick_requeue now tid periodicAtPop s2 = s2) := by
  constructor
  · intro h
    rw [tick_requeue, if_pos h]
    refine ⟨by simp [Function.update_same], ?_, insert_timer_in_queue_perm _ _ _⟩
    rw [insert_timer_in_queue_count]
    rw [List.count_eq_zero_of_not_mem h.2.1]
  · intro h
    rw [tick_requeue, if_neg h]

/-- C2 witness: at `now = 20`, periodic timer 1 (period 3), left unlinked
by its callback with queue `[0]`, is requeued for deadline 23 and occurs
exactly once in the queue. -/
theorem tick_requeue_spec_witness :
    (true = true ∧ 1 ∉ (exStateQ [0]).queue ∧
      0 < ((exStateQ [0]).timers 1).periodic_time) ∧
    (((tick_requeue 20 1 true (exStateQ [0])).timers 1).scheduled_time
        = 20 + ((exStateQ [0]).timers 1).periodic_time ∧
      (tick_requeue 20 1 true (exStateQ [0])).queue.count 1 = 1 ∧
      (tick_requeue 20 1 true (exStateQ [0])).queue.Perm
        (1 :: (exStateQ [0]).queue)) := by
  have h : true = true ∧ 1 ∉ (exStateQ [0]).queue ∧
      0 < ((exStateQ [0]).timers 1).periodic_time := by
    refine ⟨rfl, by decide, by decide⟩
  exact ⟨h, (tick_requeue_spec 20 1 true (exStateQ [0])).1 h⟩

theorem timer_tick_loop_zero (cbs : CallbackInterp) (now : Nat)
    (s : TimerState) (ret : Bool) :
    timer_tick_loop cbs now 0 s ret = none := rfl

theorem timer_tick_loop_nil (cbs : CallbackInterp) (now fuel : Nat)
    (store : TimerId → Timer) (ret : Bool) :
    timer_tick_loop cbs now (fuel + 1) ⟨store, []⟩ ret =
      some (⟨store, []⟩, ret, []) := rfl

theorem timer_tick_loop_future (cbs : CallbackInterp) (now fuel : Nat)
    (store : TimerId → Timer) (tid : TimerId) (rest : List TimerId)
    (ret : Bool) (h : now < (store tid).scheduled_time) :
    timer_tick_loop cbs now (fuel + 1) ⟨store, tid :: rest⟩ ret =
      some (⟨store, tid :: rest⟩, ret, []) := by
  simp [timer_tick_loop, TIME_LT, h]

theorem timer_tick_loop_due (cbs : CallbackInterp) (now fuel : Nat)
    (store : TimerId → Timer) (tid : TimerId) (rest : List TimerId)
    (ret : Bool) (h : (store tid).scheduled_time ≤ now) :
    timer_tick_loop cbs now (fuel + 1) ⟨store, tid :: rest⟩ ret =
      match timer_tick_loop cbs now fuel
          (tick_requeue now tid (decide (0 < (store tid).periodic_time))
            (cbs (store tid).callback tid now ⟨store, rest⟩).1)
          (ret || (cbs (store tid).callback tid now ⟨store, rest⟩).2) with
      | none => none
      | some (sF, retF, log) =>
        some (sF, retF,
          ⟨tid, (store tid).scheduled_time, rest,
            (cbs (store tid).callback tid now ⟨store, rest⟩).2⟩ :: log) := by
  simp [timer_tick_loop, TIME_LT, Nat.not_lt.mpr h]

theorem tick_requeue_nodup (now : Nat) (tid : TimerId) (p : Bool)
    (s2 : TimerState) (h : s2.queue.Nodup) :
    (tick_requeue now tid p s2).queue.Nodup := by
  by_cases hc : p = true ∧ tid ∉ s2.queue ∧ 0 < (s2.timers tid).periodic_time
  · rw [tick_requeue, if_pos hc]
    exact (insert_timer_in_queue_perm _ tid s2.queue).nodup_iff.mpr
      (List.nodup_cons.mpr ⟨hc.2.1, h⟩)
  · rw [tick_requeue, if_neg hc]
    exact h

theorem timer_tick_loop_sound (cbs : CallbackInterp) (now : Nat)
    (hcb : ∀ c t n σ, σ.queue.Nodup → ((cbs c t n σ).1).queue.Nodup) :
    ∀ fuel s ret sF retF log,
      s.queue.Nodup →
      timer_tick_loop cbs now fuel s ret = some (sF, retF, log) →
      ((∀ r ∈ log, r.schedAtPop ≤ now ∧ r.tid ∉ r.queueAtCb) ∧
       (∀ hd tl, sF.queue = hd :: tl →
         now < (sF.timers hd).scheduled_time)) := by
  intro fuel
  induction fuel with
  | zero =>
    intro s ret sF retF log _ hrun
    exact absurd hrun (by simp [timer_tick_loop_zero])
  | succ fuel ih =>
    rintro ⟨store, q⟩ ret sF retF log hnd hrun
    match q with
    | [] =>
      rw [timer_tick_loop_nil] at hrun
      simp only [Option.some.injEq, Prod.mk.injEq] at hrun
      obtain ⟨h1, -, h3⟩ := hrun
      constructor
      · rw [← h3]
        simp
      · intro hd tl hq
        rw [← h1] at hq
        exact absurd hq (by simp)
    | tid :: rest =>
      by_cases hfut : now < (store tid).scheduled_time
      · rw [timer_tick_loop_future cbs now fuel store tid rest ret hfut] at hrun
        simp only [Option.some.injEq, Prod.mk.injEq] at hrun
        obtain ⟨h1, -, h3⟩ := hrun
        constructor
        · rw [← h3]
          simp
        · intro hd tl hq
          rw [← h1] at hq
          have hq2 : tid :: rest = hd :: tl := hq
          rw [List.cons.injEq] at hq2
          rw [← h1, ← hq2.1]
          exact hfut
      · have hdue := Nat.le_of_not_lt hfut
        rw [timer_tick_loop_due cbs now fuel store tid rest ret hdue] at hrun
        split at hrun
        · exact absurd hrun (by simp)
        · rename_i sF1 retF1 log1 heq
          have hndrest : rest.Nodup := (List.nodup_cons.mp hnd).2
          have htid : tid ∉ rest := (List.nodup_cons.mp hnd).1
          have hnd2 : ((cbs (store tid).callback tid now
              ⟨store, rest⟩).1).queue.Nodup :=
            hcb (store tid).callback tid now ⟨store, rest⟩ hndrest
          have hnd3 := tick_requeue_nodup now tid
            (decide (0 < (store tid).periodic_time))
            (cbs (store tid).callback tid now ⟨store, rest⟩).1 hnd2
          obtain ⟨hlog, hfin⟩ := ih _ _ _ _ _ hnd3 heq
          simp only [Option.some.injEq, Prod.mk.injEq] at hrun
          obtain ⟨h1, -, h3⟩ := hrun
          constructor
          · rw [← h3]
            intro r hr
            rcases List.mem_cons.mp hr with hr | hr
            · rw [hr]
              exact ⟨hdue, htid⟩
            · exact hlog r hr
          · rw [← h1]
            exact hfin

theorem timer_tick_loop_due_head (cbs : CallbackInterp) (now fuel : Nat)
    (s : TimerState) (ret : Bool) (sF : TimerState) (retF : Bool)
    (log : List FireRecord) (tid : TimerId) (rest : List TimerId)
    (hq : s.queue = tid :: rest)
    (hdue : (s.timers tid).scheduled_time ≤ now)
    (hrun : timer_tick_loop cbs now fuel s ret = some (sF, retF, log)) :
    ∃ hint log1,
      log = ⟨tid, (s.timers tid).scheduled_time, rest, hint⟩ :: log1 := by
  match fuel with
  | 0 => exact absurd hrun (by simp [timer_tick_loop_zero])
  | fuel + 1 =>
    obtain ⟨store, q⟩ := s
    have hq2 : q = tid :: rest := hq
    subst hq2
    rw [timer_tick_loop_due cbs now fuel store tid rest ret hdue] at hrun
    split at hrun
    · exact absurd hrun (by simp)
    · simp only [Option.some.injEq, Prod.mk.injEq] at hrun
      exact ⟨_, _, hrun.2.2.symm⟩

/-- C4: during a dispatch at `now`, every fired timer had its deadline at
or before `now` when it was popped and was already unlinked when its
callback ran; when the drain loop stops with a non-empty queue the head's
deadline is strictly in the future; and a head whose deadline is at or
before `now` (equality included) is always fired, first. -/
theorem timer_tick_loop_drain_spec (cbs : CallbackInterp) (now fuel : Nat)
    (s sF : TimerState) (retF : Bool) (log : List FireRecord)
    (hnd : s.queue.Nodup)
    (hcb : ∀ c t n σ, σ.queue.Nodup → ((cbs c t n σ).1).queue.Nodup)
    (hrun : timer_tick_loop cbs now fuel s false = some (sF, retF, log)) :
    (∀ r ∈ log, r.schedAtPop ≤ now ∧ r.tid ∉ r.queueAtCb) ∧
    (∀ hd tl, sF.queue = hd :: tl → now < (sF.timers hd).scheduled_time) ∧
    (∀ tid rest, s.queue = tid :: rest →
      (s.timers tid).scheduled_time ≤ now →
      ∃ hint log1,
        log = ⟨tid, (s.timers tid).scheduled_time, rest, hint⟩ :: log1) := by
  obtain ⟨h1, h2⟩ :=
    timer_tick_loop_sound cbs now hcb fuel s false sF retF log hnd hrun
  exact ⟨h1, h2, fun tid rest hq hdue =>
    timer_tick_loop_due_head cbs now fuel s false sF retF log tid rest hq
      hdue hrun⟩

/-- C4 witness: dispatching `exState` at `now = 10` (fuel 3) fires timer 0
(deadline 5) and timer 1 (deadline 10, due because equal), requeues 1 for
13, and stops with head deadline 13 in the future. -/
theorem timer_tick_loop_drain_spec_witness :
    (exState.queue.Nodup ∧
      timer_tick_loop nopCallbacks 10 3 exState false =
        some (⟨exFiredStore, [1]⟩, false, exLog)) ∧
    ((∀ r ∈ exLog, r.schedAtPop ≤ 10 ∧ r.tid ∉ r.queueAtCb) ∧
     (∀ hd tl, (⟨exFiredStore, [1]⟩ : TimerState).queue = hd :: tl →
       10 < ((⟨exFiredStore, [1]⟩ : TimerState).timers hd).scheduled_time) ∧
     (∀ tid rest, exState.queue = tid :: rest →
       (exState.timers tid).scheduled_time ≤ 10 →
       ∃ hint log1,
         exLog = ⟨tid, (exState.timers tid).scheduled_time, rest, hint⟩
           :: log1)) := by
  have hnd : exState.queue.Nodup := by decide
  have hrun : timer_tick_loop nopCallbacks 10 3 exState false =
      some (⟨exFiredStore, [1]⟩, false, exLog) := rfl
  exact ⟨⟨hnd, hrun⟩,
    timer_tick_loop_drain_spec nopCallbacks 10 3 exState ⟨exFiredStore, [1]⟩
      false exLog hnd (fun _ _ _ _ h => h) hrun⟩

theorem timer_tick_loop_ret (cbs : CallbackInterp) (now : Nat) :
    ∀ fuel s ret sF retF log,
      timer_tick_loop cbs now fuel s ret = some (sF, retF, log) →
      retF = (ret || log.any fun r => r.hint) := by
  intro fuel
  induction fuel with
  | zero =>
    intro s ret sF retF log hrun
    exact absurd hrun (by simp [timer_tick_loop_zero])
  | succ fuel ih =>
    rintro ⟨store, q⟩ ret sF retF log hrun
    match q with
    | [] =>
      rw [timer_tick_loop_nil] at hrun
      simp only [Option.some.injEq, Prod.mk.injEq] at hrun
      obtain ⟨-, h2, h3⟩ := hrun
      rw [← h2, ← h3]
      simp
    | tid :: rest =>
      by_cases hfut : now < (store tid).scheduled_time
      · rw [timer_tick_loop_future cbs now fuel store tid rest ret hfut] at hrun
        simp only [Option.some.injEq, Prod.mk.injEq] at hrun
        obtain ⟨-, h2, h3⟩ := hrun
        rw [← h2, ← h3]
        simp
      · have hdue := Nat.le_of_not_lt hfut
        rw [timer_tick_loop_due cbs now fuel store tid rest ret hdue] at hrun
        split at hrun
        · exact absurd hrun (by simp)
        · rename_i sF1 retF1 log1 heq
          have hret1 := ih _ _ _ _ _ heq
          simp only [Option.some.injEq, Prod.mk.injEq] at hrun
          obtain ⟨-, h2, h3⟩ := hrun
          rw [← h2, ← h3]
          rw [hret1]
          simp [Bool.or_assoc]

/-- C7: the dispatcher returns the OR-aggregate of the collected hints: on
a dynamic-timer platform `INT_RESCHEDULE` (`true`) is returned iff some
fired callback returned it; on a fixed periodic-tick platform iff some
fired callback or the scheduler's quantum-expiration hook returned it. -/
theorem timer_tick_reschedule_aggregate (cbs : CallbackInterp)
    (now fuel : Nat) (s : TimerState) (hookHint : Bool) :
    (∀ sF retF log hw,
      timer_tick_dynamic cbs now fuel s = some (sF, retF, log, hw) →
      (retF = true ↔ ∃ r ∈ log, r.hint = true)) ∧
    (∀ sF retF log,
      timer_tick_fixed cbs now fuel s hookHint = some (sF, retF, log) →
      (retF = true ↔ (∃ r ∈ log, r.hint = true) ∨ hookHint = true)) := by
  constructor
  · intro sF retF log hw h
    unfold timer_tick_dynamic at h
    split at h
    · exact absurd h (by simp)
    · rename_i sF1 retF1 log1 heq
      have hret := timer_tick_loop_ret cbs now fuel s false sF1 retF1 log1 heq
      split at h
      · simp only [Option.some.injEq, Prod.mk.injEq] at h
        obtain ⟨-, h2, h3, -⟩ := h
        rw [← h2, ← h3, hret]
        simp [List.any_eq_true]
      · split at h
        · simp only [Option.some.injEq, Prod.mk.injEq] at h
          obtain ⟨-, h2, h3, -⟩ := h
          rw [← h2, ← h3, hret]
          simp [List.any_eq_true]
        · exact absurd h (by simp)
  · intro sF retF log h
    unfold timer_tick_fixed at h
    split at h
    · exact absurd h (by simp)
    · rename_i sF1 retF1 log1 heq
      have hret := timer_tick_loop_ret cbs now fuel s false sF1 retF1 log1 heq
      simp only [Option.some.injEq, Prod.mk.injEq] at h
      obtain ⟨-, h2, h3⟩ := h
      rw [← h2, ← h3, hret]
      simp [List.any_eq_true]

/-- C7 witness: at `now = 10` on `exState` no callback requests a
reschedule, but the fixed-tick scheduler hook does, so the fixed-tick
dispatch returns `INT_RESCHEDULE` while the dynamic one does not. -/
theorem timer_tick_reschedule_aggregate_witness :
    (timer_tick_fixed nopCallbacks 10 3 exState true =
      some (⟨exFiredStore, [1]⟩, true, exLog)) ∧
    ((true : Bool) = true ↔ (∃ r ∈ exLog, r.hint = true) ∨ (true : Bool) = true) := by
  have h : timer_tick_fixed nopCallbacks 10 3 exState true =
      some (⟨exFiredStore, [1]⟩, true, exLog) := rfl
  exact ⟨h, (timer_tick_reschedule_aggregate nopCallbacks 10 3 exState
    true).2 ⟨exFiredStore, [1]⟩ true exLog h⟩

/-- C8: on a dynamic-timer platform, once the drain loop has finished, a
non-empty queue's head deadline is strictly after `now`, so the
`DEBUG_ASSERT(TIME_GT(timer->scheduled_time, now))` at the re-arm site
passes (the dispatch does not panic) and the hardware one-shot timer is
programmed with the strictly positive delay `scheduled_time - now`; with
an empty queue no hardware timer is programmed. -/
theorem timer_tick_dynamic_rearm (cbs : CallbackInterp) (now fuel : Nat)
    (s sF : TimerState) (retF : Bool) (log : List FireRecord)
    (hnd : s.queue.Nodup)
    (hcb : ∀ c t n σ, σ.queue.Nodup → ((cbs c t n σ).1).queue.Nodup)
    (hrun : timer_tick_loop cbs now fuel s false = some (sF, retF, log)) :
    ∃ hw, timer_tick_dynamic cbs now fuel s = some (sF, retF, log, hw) ∧
      (sF.queue = [] → hw = none) ∧
      (∀ hd tl, sF.queue = hd :: tl →
        now < (sF.timers hd).scheduled_time ∧
        hw = some ((sF.timers hd).scheduled_time - now) ∧
        0 < (sF.timers hd).scheduled_time - now) := by
  obtain ⟨-, hfin⟩ :=
    timer_tick_loop_sound cbs now hcb fuel s false sF retF log hnd hrun
  unfold timer_tick_dynamic
  rw [hrun]
  match hq : sF.queue with
  | [] =>
    refine ⟨none, by simp [hq], fun _ => rfl, ?_⟩
    intro hd tl hcons
    exact absurd hcons (by simp)
  | tid :: tl0 =>
    have hlt : now < (sF.timers tid).scheduled_time := hfin tid tl0 hq
    have hgt : TIME_GT (sF.timers tid).scheduled_time now = true := by
      simp [TIME_GT, hlt]
    refine ⟨some ((sF.timers tid).scheduled_time - now), ?_, ?_, ?_⟩
    · simp [hq, hgt]
    · intro h0
      exact absurd h0 (by simp)
    · intro hd tl hcons
      rw [List.cons.injEq] at hcons
      rw [← hcons.1]
      exact ⟨hlt, rfl, Nat.sub_pos_of_lt hlt⟩

/-- C8 witness: the dispatch of `exState` at `now = 10` ends with head
deadline 13; the assertion passes and the hardware timer is programmed
for the positive delay 3. -/
theorem timer_tick_dynamic_rearm_witness :
    (exState.queue.Nodup ∧
      timer_tick_loop nopCallbacks 10 3 exState false =
        some (⟨exFiredStore, [1]⟩, false, exLog)) ∧
    (∃ hw, timer_tick_dynamic nopCallbacks 10 3 exState =
        some (⟨exFiredStore, [1]⟩, false, exLog, hw) ∧
      ((⟨exFiredStore, [1]⟩ : TimerState).queue = [] → hw = none) ∧
      (∀ hd tl, (⟨exFiredStore, [1]⟩ : TimerState).queue = hd :: tl →
        10 < ((⟨exFiredStore, [1]⟩ : TimerState).timers hd).scheduled_time ∧
        hw = some (((⟨exFiredStore, [1]⟩ : TimerState).timers hd).scheduled_time - 10) ∧
        0 < ((⟨exFiredStore, [1]⟩ : TimerState).timers hd).scheduled_time - 10)) := by
  have hnd : exState.queue.Nodup := by decide
  have hrun : timer_tick_loop nopCallbacks 10 3 exState false =
      some (⟨exFiredStore, [1]⟩, false, exLog) := rfl
  exact ⟨⟨hnd, hrun⟩,
    timer_tick_dynamic_rearm nopCallbacks 10 3 exState ⟨exFiredStore, [1]⟩
      false exLog hnd (fun _ _ _ _ h => h) hrun⟩

theorem dueCount_insert_not_due (now : Nat) (store : TimerId → Timer)
    (tid : TimerId) (q : List TimerId)
    (h : ¬ (store tid).scheduled_time ≤ now) :
    ((insert_timer_in_queue store tid q).filter
      (fun j => decide ((store j).scheduled_time ≤ now))).length =
    (q.filter (fun j => decide ((store j).scheduled_time ≤ now))).length := by
  rw [((insert_timer_in_queue_perm store tid q).filter _).length_eq]
  rw [List.filter_cons]
  simp [h]

theorem dueCount_requeue (now : Nat) (tid : TimerId) (p : Bool)
    (s2 : TimerState) :
    dueCount now (tick_requeue now tid p s2) ≤ dueCount now s2 := by
  by_cases hc : p = true ∧ tid ∉ s2.queue ∧ 0 < (s2.timers tid).periodic_time
  · rw [tick_requeue, if_pos hc]
    unfold dueCount
    have hnotdue : ¬ ((Function.update s2.timers tid
        { s2.timers tid with
          scheduled_time := now + (s2.timers tid).periodic_time })
          tid).scheduled_time ≤ now := by
      rw [Function.update_same]
      exact Nat.not_le_of_lt (Nat.lt_add_of_pos_right hc.2.2)
    have hfeq : List.filter
        (fun j => decide (((Function.update s2.timers tid
          { s2.timers tid with
            scheduled_time := now + (s2.timers tid).periodic_time })
            j).scheduled_time ≤ now)) s2.queue =
        List.filter (fun j => decide ((s2.timers j).scheduled_time ≤ now))
          s2.queue := by
      apply List.filter_congr
      intro a ha
      have hne : a ≠ tid := fun hh => hc.2.1 (hh ▸ ha)
      rw [Function.update_noteq hne]
    rw [dueCount_insert_not_due now _ tid s2.queue hnotdue, hfeq]
  · rw [tick_requeue, if_neg hc]

/-- C10: the drain loop terminates.  If no callback increases the number
of entries due at `now` (every re-arm through the API reads a current time
at or after `now` and coerces its delay to at least one tick, and the
dispatcher's own requeue schedules at `now + period` with `period ≥ 1`),
then each iteration permanently consumes one of the finitely many due
entries, and any fuel exceeding the initial due count makes the loop
reach its exit condition. -/
theorem timer_tick_loop_terminates (cbs : CallbackInterp) (now : Nat)
    (hcb : ∀ c t n σ, dueCount now (cbs c t n σ).1 ≤ dueCount now σ) :
    ∀ fuel s ret, dueCount now s < fuel →
      (timer_tick_loop cbs now fuel s ret).isSome = true := by
  intro fuel
  induction fuel with
  | zero =>
    intro s ret h
    exact absurd h (Nat.not_lt_zero _)
  | succ fuel ih =>
    rintro ⟨store, q⟩ ret h
    match q with
    | [] =>
      rw [timer_tick_loop_nil]
      rfl
    | tid :: rest =>
      by_cases hfut : now < (store tid).scheduled_time
      · rw [timer_tick_loop_future cbs now fuel store tid rest ret hfut]
        rfl
      · have hdue := Nat.le_of_not_lt hfut
        rw [timer_tick_loop_due cbs now fuel store tid rest ret hdue]
        have hpop : dueCount now (⟨store, rest⟩ : TimerState) + 1 =
            dueCount now (⟨store, tid :: rest⟩ : TimerState) := by
          unfold dueCount
          simp [List.filter_cons, hdue]
        have hcb1 := hcb (store tid).callback tid now ⟨store, rest⟩
        have hreq := dueCount_requeue now tid
          (decide (0 < (store tid).periodic_time))
          (cbs (store tid).callback tid now ⟨store, rest⟩).1
        have hlt : dueCount now
            (tick_requeue now tid (decide (0 < (store tid).periodic_time))
              (cbs (store tid).callback tid now ⟨store, rest⟩).1) < fuel := by
          omega
        have hrec := ih
          (tick_requeue now tid (decide (0 < (store tid).periodic_time))
            (cbs (store tid).callback tid now ⟨store, rest⟩).1)
          (ret || (cbs (store tid).callback tid now ⟨store, rest⟩).2) hlt
        cases hres : timer_tick_loop cbs now fuel
            (tick_requeue now tid (decide (0 < (store tid).periodic_time))
              (cbs (store tid).callback tid now ⟨store, rest⟩).1)
            (ret || (cbs (store tid).callback tid now ⟨store, rest⟩).2) with
        | none =>
          rw [hres] at hrec
          exact absurd hrec (by simp)
        | some v =>
          obtain ⟨sF, retF, log⟩ := v
          rfl

/-- C10 witness: dispatching `exState` (two due entries) at `now = 10`
with fuel `3 > dueCount = 2` completes. -/
theorem timer_tick_loop_terminates_witness :
    dueCount 10 exState < 3 ∧
    (timer_tick_loop nopCallbacks 10 3 exState false).isSome = true := by
  have h : dueCount 10 exState < 3 := by decide
  exact ⟨h, timer_tick_loop_terminates nopCallbacks 10
    (fun _ _ _ _ => Nat.le_refl _) 3 exState false h⟩

/-- A successful `timer_set` preserves queue distinctness: the timer being
inserted was not linked (otherwise the call panics), so the queue never
carries two entries for one timer. -/
theorem timer_set_nodup (s s1 : TimerState) (tid : TimerId)
    (now delay period cb a : Nat) (hnd : s.queue.Nodup)
    (h : timer_set s tid now delay period cb a = some s1) :
    s1.queue.Nodup := by
  unfold timer_set at h
  split at h
  · exact absurd h (by simp)
  · split at h
    · exact absurd h (by simp)
    · rename_i hmem
      simp only [Option.some.injEq] at h
      rw [← h]
      exact (insert_timer_in_queue_perm _ tid s.queue).nodup_iff.mpr
        (List.nodup_cons.mpr ⟨hmem, hnd⟩)

/-- `timer_cancel` preserves queue distinctness (it only erases). -/
theorem timer_cancel_nodup (s s1 : TimerState) (tid : TimerId)
    (hnd : s.queue.Nodup) (h : timer_cancel s tid = some s1) :
    s1.queue.Nodup := by
  unfold timer_cancel at h
  split at h
  · exact absurd h (by simp)
  · simp only [Option.some.injEq] at h
    rw [← h]
    exact List.Nodup.sublist (s.queue.erase_sublist tid) hnd

/-- A successful `timer_set` issued at a time `n` at or after the dispatch
time `now` never adds an entry due at `now` when its delay is positive
(as it always is through `timer_set_oneshot`/`timer_set_periodic`, which
coerce 0 to 1): the new deadline `n + delay` is strictly after `now`.
Together with `timer_cancel_dueCount` this realises the callback
hypothesis of the drain-loop termination theorem for callbacks composed of
timer API calls. -/
theorem timer_set_dueCount (s s1 : TimerState) (tid : TimerId)
    (n now delay period cb a : Nat) (hn : now ≤ n) (hd : 0 < delay)
    (h : timer_set s tid n delay period cb a = some s1) :
    dueCount now s1 ≤ dueCount now s := by
  unfold timer_set at h
  split at h
  · exact absurd h (by simp)
  · split at h
    · exact absurd h (by simp)
    · rename_i hmem
      simp only [Option.some.injEq] at h
      rw [← h]
      unfold dueCount
      have hnotdue : ¬ ((Function.update s.timers tid
          { s.timers tid with
            scheduled_time := n + delay, periodic_time := period,
            callback := cb, arg := a }) tid).scheduled_time ≤ now := by
        rw [Function.update_same]
        exact Nat.not_le_of_lt
          (Nat.lt_of_le_of_lt hn (Nat.lt_add_of_pos_right hd))
      have hfeq : List.filter
          (fun j => decide (((Function.update s.timers tid
            { s.timers tid with
              scheduled_time := n + delay, periodic_time := period,
              callback := cb, arg := a }) j).scheduled_time ≤ now))
            s.queue =
          List.filter (fun j => decide ((s.timers j).scheduled_time ≤ now))
            s.queue := by
        apply List.filter_congr
        intro x hx
        have hne : x ≠ tid := fun hh => hmem (hh ▸ hx)
        rw [Function.update_noteq hne]
      rw [dueCount_insert_not_due now _ tid s.queue hnotdue, hfeq]

/-- `timer_cancel` never increases the number of entries due at any
time: it only erases a queue entry and leaves every deadline unchanged. -/
theorem timer_cancel_dueCount (s s1 : TimerState) (tid : TimerId)
    (now : Nat) (h : timer_cancel s tid = some s1) :
    dueCount now s1 ≤ dueCount now s := by
  unfold timer_cancel at h
  split at h
  · exact absurd h (by simp)
  · simp only [Option.some.injEq] at h
    rw [← h]
    unfold dueCount
    have hfeq : List.filter
        (fun j => decide (((Function.update s.timers tid
          { s.timers tid with
            periodic_time := 0, callback := 0, arg := 0 })
            j).scheduled_time ≤ now)) (s.queue.erase tid) =
        List.filter (fun j => decide ((s.timers j).scheduled_time ≤ now))
          (s.queue.erase tid) := by
      apply List.filter_congr
      intro x hx
      by_cases hne : x = tid
      · subst hne
        simp [Function.update_same]
      · rw [Function.update_noteq hne]
    rw [hfeq]
    exact List.Sublist.length_le
      (List.Sublist.filter _ (s.queue.erase_sublist tid))
